import Mathlib

/-!
# Verification of the DND-Server session-state synchronization engine

Shallow embedding of the socket-event handlers of the server
(`src/unnamed/part_004`): the combat-roster handlers (`add-monster`,
`update-hp`, `batch-delete-monsters`), the dice handlers (`roll-dice`),
the battlefield handlers (`move-piece`), and the chunked background-image
transfer protocol (`background-transfer-start` / `background-transfer-chunk`,
inactivity timers).

JavaScript objects keyed by id are embedded as association lists with unique
keys (`getKey` / `setKey` / `delKey`); JS `Array.prototype` operations map to
their `List` counterparts (`shift` = `drop 1`, `push` = `++ [·]`,
`indexOf`/`splice` of the first occurrence = `List.erase`, holes in
`new Array(n)` = `Option.none` slots).  JS falsy-default idioms
(`v || d`) are embedded by `jsOrStr` / `jsOrInt` / truthiness tests on the
empty string and zero.  `Math.random()`-driven draws are parameterized by an
oracle `rng : Nat → Nat`; the k-th call of
`Math.floor(Math.random() * faces) + 1` is embedded as `rng k % faces + 1`,
which lands in `[1, faces]` for every oracle.  Timestamps (`Date.now()`) are
explicit `now : Nat` parameters.  `setTimeout` / `clearTimeout` are embedded
by an explicit set of armed timer ids together with a fresh-id counter.
-/

namespace DNDServer

/-! ## Association lists embedding JavaScript objects -/

/-- Lookup of `obj[k]` in a JS object embedded as an association list
(first matching key wins; keys are unique in any reachable state). -/
def getKey {α : Type} (m : List (String × α)) (k : String) : Option α :=
  match m with
  | [] => none
  | (k', v) :: rest => if k' = k then some v else getKey rest k

/-- Assignment `obj[k] = v`: overwrite in place if the key exists,
otherwise append (JS objects keep insertion order of keys). -/
def setKey {α : Type} (m : List (String × α)) (k : String) (v : α) :
    List (String × α) :=
  match m with
  | [] => [(k, v)]
  | (k', v') :: rest =>
      if k' = k then (k', v) :: rest else (k', v') :: setKey rest k v

/-- Deletion `delete obj[k]` of a key from a JS object (keys are unique, so
removing every pair with that key coincides with JS deletion). -/
def delKey {α : Type} (m : List (String × α)) (k : String) :
    List (String × α) :=
  match m with
  | [] => []
  | (k', v) :: rest =>
      if k' = k then delKey rest k else (k', v) :: delKey rest k

theorem getKey_setKey_self {α : Type} (m : List (String × α)) (k : String)
    (v : α) : getKey (setKey m k v) k = some v := by
  induction m with
  | nil => simp [setKey, getKey]
  | cons p rest ih =>
      by_cases h : p.1 = k
      · simp [setKey, getKey, h]
      · simp [setKey, getKey, h, ih]

theorem getKey_setKey_ne {α : Type} (m : List (String × α)) (k k' : String)
    (v : α) (h : k ≠ k') : getKey (setKey m k v) k' = getKey m k' := by
  induction m with
  | nil => simp [setKey, getKey, h]
  | cons p rest ih =>
      by_cases hp : p.1 = k
      · subst hp
        simp [setKey, getKey, h, ih]
      · simp only [setKey, hp, if_false, getKey]
        by_cases hp' : p.1 = k'
        · simp [hp']
        · simp [hp', ih]

theorem getKey_delKey_self {α : Type} (m : List (String × α)) (k : String) :
    getKey (delKey m k) k = none := by
  induction m with
  | nil => rfl
  | cons p rest ih =>
      by_cases hp : p.1 = k
      · simp [delKey, hp, ih]
      · simp [delKey, hp, getKey, ih]

theorem getKey_delKey_ne {α : Type} (m : List (String × α)) (k k' : String)
    (h : k ≠ k') : getKey (delKey m k) k' = getKey m k' := by
  induction m with
  | nil => rfl
  | cons p rest ih =>
      by_cases hp : p.1 = k
      · have hpk' : p.1 ≠ k' := by rw [hp]; exact h
        simp [delKey, hp, getKey, hpk', ih, h]
      · by_cases hp' : p.1 = k'
        · simp [delKey, hp, getKey, hp', Ne.symm h]
        · simp [delKey, hp, getKey, hp', ih]

theorem getKey_delKey_of_none {α : Type} (m : List (String × α))
    (k k' : String) (h : getKey m k' = none) :
    getKey (delKey m k) k' = none := by
  by_cases hk : k = k'
  · subst hk; exact getKey_delKey_self m k
  · rw [getKey_delKey_ne m k k' hk]; exact h

/-! ## JavaScript falsy-default idioms -/

/-- JS `s || d` on strings (the empty string is falsy). -/
def jsOrStr (v d : String) : String := if v = "" then d else v

/-- JS `n || d` on numbers (zero is falsy). -/
def jsOrInt (v d : Int) : Int := if v = 0 then d else v

/-- JS `s || d` on an optional string field (`undefined` and `""` falsy). -/
def jsOrStrOpt (v : Option String) (d : String) : String :=
  match v with
  | none => d
  | some s => jsOrStr s d

/-- JS `n || d` on an optional numeric field (`undefined` and `0` falsy). -/
def jsOrIntOpt (v : Option Int) (d : Int) : Int :=
  match v with
  | none => d
  | some n => jsOrInt n d

/-- JS `b || d` on an optional boolean field. -/
def jsOrBoolOpt (v : Option Bool) (d : Bool) : Bool :=
  match v with
  | none => d
  | some b => b || d

/-! ## Dice model (`roll-dice` handler, `src/unnamed/part_004` 479-536) -/

/-- One recorded roll: either a plain number pushed by the no-modifier
branch, or the `{roll1, roll2, finalRoll, isAdvantage, isDisadvantage}`
record pushed when advantage or disadvantage is set. -/
inductive RollEntry where
  | simple (roll : Nat)
  | advDis (roll1 roll2 finalRoll : Nat) (isAdvantage isDisadvantage : Bool)
deriving DecidableEq, Repr

/-- The final value a roll entry contributes to its subtotal. -/
def RollEntry.finalValue : RollEntry → Nat
  | .simple r => r
  | .advDis _ _ f _ _ => f

/-- Per-die-type record `rollResults[diceType]`. -/
structure DieResult where
  quantity : Nat
  rolls : List RollEntry
  subtotal : Nat
deriving DecidableEq, Repr

/-- One entry of `rollHistory`: `{playerName, rolls, grandTotal, timestamp}`. -/
structure RollRecord where
  playerName : String
  rolls : List (String × DieResult)
  grandTotal : Nat
  timestamp : Nat
deriving DecidableEq, Repr

/-- The dice-type vocabulary check `diceType.match(/^d(4|6|8|10|12|20)$/)`
together with `parseInt(diceType.substring(1))`. -/
def diceFaces : String → Option Nat
  | "d4" => some 4
  | "d6" => some 6
  | "d8" => some 8
  | "d10" => some 10
  | "d12" => some 12
  | "d20" => some 20
  | _ => none

/-- The inner `for (let i = 0; i < quantity; i++)` loop of the `roll-dice`
handler for one die type: returns the pushed roll entries in order, the
accumulated subtotal, and the rng counter after consuming the draws. -/
def rollGroup (rng : Nat → Nat) (advantage disadvantage : Bool) (faces : Nat) :
    Nat → Nat → List RollEntry × Nat × Nat
  | 0, k => ([], 0, k)
  | q + 1, k =>
      if advantage || disadvantage then
        let roll1 := rng k % faces + 1
        let roll2 := rng (k + 1) % faces + 1
        let finalRoll := if advantage then max roll1 roll2 else min roll1 roll2
        let rest := rollGroup rng advantage disadvantage faces q (k + 2)
        (RollEntry.advDis roll1 roll2 finalRoll advantage disadvantage
            :: rest.1,
         finalRoll + rest.2.1, rest.2.2)
      else
        let roll := rng k % faces + 1
        let rest := rollGroup rng advantage disadvantage faces q (k + 1)
        (RollEntry.simple roll :: rest.1, roll + rest.2.1, rest.2.2)

/-- The outer `for (const diceType in diceConfig.dice)` loop: skips
non-positive quantities and die types outside the vocabulary, accumulates
`rollResults` in iteration order and the grand total. -/
def rollAll (rng : Nat → Nat) (advantage disadvantage : Bool) :
    List (String × Int) → Nat → List (String × DieResult) × Nat × Nat
  | [], k => ([], 0, k)
  | (diceType, q) :: rest, k =>
      match diceFaces diceType with
      | some faces =>
          if 0 < q then
            let group := rollGroup rng advantage disadvantage faces q.toNat k
            let others := rollAll rng advantage disadvantage rest group.2.2
            ((diceType, ⟨q.toNat, group.1, group.2.1⟩) :: others.1,
             group.2.1 + others.2.1, others.2.2)
          else rollAll rng advantage disadvantage rest k
      | none => rollAll rng advantage disadvantage rest k

/-- The client dice configuration `{dice, advantage, disadvantage}`;
`dice` keeps the JS object's key insertion order. -/
structure DiceConfig where
  dice : List (String × Int)
  advantage : Bool
  disadvantage : Bool
deriving DecidableEq, Repr

/-- The `rollDataToSend` record assembled by the `roll-dice` handler. -/
def rollDiceRecord (rng : Nat → Nat) (playerName : String) (cfg : DiceConfig)
    (now : Nat) : RollRecord :=
  let res := rollAll rng cfg.advantage cfg.disadvantage cfg.dice 0
  { playerName := playerName, rolls := res.1, grandTotal := res.2.1,
    timestamp := now }

/-- In-memory dice session `{diceState, rollHistory, lastUpdated}`. -/
structure DiceSessionState where
  diceState : DiceConfig
  rollHistory : List RollRecord
  lastUpdated : Nat
deriving DecidableEq, Repr

/-- `if (rollHistory.length >= 50) rollHistory.shift(); rollHistory.push(r)` —
the 50-entry truncation rule of the `roll-dice` handler. -/
def pushHistory (history : List RollRecord) (r : RollRecord) :
    List RollRecord :=
  (if 50 ≤ history.length then history.drop 1 else history) ++ [r]

/-- One `roll-dice` request as applied to a dice session. -/
structure RollOp where
  rng : Nat → Nat
  playerName : String
  cfg : DiceConfig
  now : Nat

/-- The state mutation of the `roll-dice` handler (the broadcast payload is
the same `rollDiceRecord`). -/
def rollDiceHandler (s : DiceSessionState) (op : RollOp) : DiceSessionState :=
  let r := rollDiceRecord op.rng op.playerName op.cfg op.now
  { s with rollHistory := pushHistory s.rollHistory r
           lastUpdated := op.now }

/-- A sequence of `roll-dice` operations applied in order. -/
def applyRolls (s : DiceSessionState) (ops : List RollOp) : DiceSessionState :=
  ops.foldl rollDiceHandler s

/-- Sum of the recorded final values of a list of roll entries. -/
def rollsTotal (rolls : List RollEntry) : Nat :=
  (rolls.map RollEntry.finalValue).sum

/-- Sum of the per-die-type subtotals of a roll-results record. -/
def subtotalsSum (results : List (String × DieResult)) : Nat :=
  (results.map (fun p => p.2.subtotal)).sum

/-- A concrete roll record, used in witnesses and counterexamples. -/
def mkRec (k : Nat) : RollRecord :=
  { playerName := "p", rolls := [], grandTotal := 0, timestamp := k }

theorem pushHistory_length_le (h : List RollRecord) (r : RollRecord)
    (hle : h.length ≤ 50) : (pushHistory h r).length ≤ 50 := by
  unfold pushHistory
  by_cases hc : 50 ≤ h.length
  · simp only [hc, if_true, List.length_append, List.length_drop,
      List.length_cons, List.length_nil]
    omega
  · simp only [hc, if_false, List.length_append, List.length_cons,
      List.length_nil]
    omega

/-- Closed form of the history after any sequence of pushes starting from the
empty history: only the 50 most recent records remain, in order. -/
theorem foldl_pushHistory_eq (rs : List RollRecord) :
    rs.foldl pushHistory [] = rs.drop (rs.length - 50) := by
  induction rs using List.reverseRecOn with
  | nil => rfl
  | append_singleton l a ih =>
      rw [List.foldl_append, List.foldl_cons, List.foldl_nil, ih]
      by_cases h : 50 ≤ l.length
      · have hlen : (l.drop (l.length - 50)).length = 50 := by
          rw [List.length_drop]; omega
        rw [pushHistory, if_pos (le_of_eq hlen.symm)]
        have h1 : l.length + 1 - 50 ≤ l.length := by omega
        rw [List.length_append, List.length_cons, List.length_nil,
          List.drop_append_of_le_length h1, List.drop_drop]
        congr 2
        omega
      · have h0 : l.length - 50 = 0 := by omega
        have h0' : l.length + 1 - 50 = 0 := by omega
        rw [h0, List.drop_zero, pushHistory, if_neg (by omega),
          List.length_append, List.length_cons, List.length_nil, h0',
          List.drop_zero]

/-- **C2**: for every dice session and every sequence of `roll-dice`
operations, the length of `rollHistory` never exceeds 50; when a roll is
appended while the history is at capacity, the oldest entry (the front of
the list) is evicted first. -/
theorem rollHistory_bounded :
    (∀ (s : DiceSessionState) (ops : List RollOp),
        s.rollHistory.length ≤ 50 →
        (applyRolls s ops).rollHistory.length ≤ 50)
    ∧ ∀ (h : List RollRecord) (r : RollRecord),
        h.length = 50 → pushHistory h r = h.drop 1 ++ [r] := by
  constructor
  · intro s ops
    induction ops generalizing s with
    | nil => intro h; simpa [applyRolls] using h
    | cons op rest ih =>
        intro h
        have : (rollDiceHandler s op).rollHistory.length ≤ 50 :=
          pushHistory_length_le _ _ h
        simpa [applyRolls, List.foldl_cons] using ih (rollDiceHandler s op) this
  · intro h r hlen
    unfold pushHistory
    rw [if_pos (le_of_eq hlen.symm)]

/-- Witness for **C2** at a concrete session and operation sequence. -/
theorem rollHistory_bounded_witness :
    (applyRolls
        { diceState := ⟨[], false, false⟩, rollHistory := [], lastUpdated := 0 }
        [⟨fun _ => 0, "p", ⟨[("d20", 1)], false, false⟩, 7⟩]).rollHistory.length
        ≤ 50
    ∧ pushHistory ((List.range 50).map mkRec) (mkRec 50)
        = ((List.range 50).map mkRec).drop 1 ++ [mkRec 50] :=
  ⟨rollHistory_bounded.1 _ _ (by simp),
   rollHistory_bounded.2 _ _ (by simp)⟩

set_option maxRecDepth 4000 in
/-- **C3 counterexample**: after the 51st roll the history holds only 50
records, so the oldest of the "51 most recent" entries (which after exactly
51 rolls are all 51 of them) is not present: the claim that the 51 most
recent entries are all present is false. -/
theorem rollHistory_51_counterexample :
    ¬ ∀ k < 51, mkRec k ∈ ((List.range 51).map mkRec).foldl pushHistory [] := by
  intro hall
  have h0 := hall 0 (by norm_num)
  revert h0
  decide

/-- **C3 (amended)**: starting from an empty `rollHistory`, after the 51st
`roll-dice` operation the oldest entry of the original sequence is absent and
the 50 most recent entries are present in order, while the length never
exceeds 50. -/
theorem rollHistory_after_51 (rs : List RollRecord) (h51 : rs.length = 51)
    (hnd : rs.Nodup) :
    rs.foldl pushHistory [] = rs.drop 1
    ∧ (rs.foldl pushHistory []).length = 50
    ∧ ∀ r ∈ rs.take 1, r ∉ rs.foldl pushHistory [] := by
  have heq : rs.foldl pushHistory [] = rs.drop 1 := by
    rw [foldl_pushHistory_eq, h51]
  refine ⟨heq, ?_, ?_⟩
  · rw [heq, List.length_drop, h51]
  · intro r hr
    match rs, h51, hnd with
    | a :: t, h51, hnd =>
        have hra : r = a := by simpa using hr
        rw [heq, hra]
        simpa using (List.nodup_cons.mp hnd).1

/-- Witness for **C3 (amended)** at the concrete sequence of 51 distinct
records `mkRec 0, …, mkRec 50`. -/
theorem rollHistory_after_51_witness :
    ((List.range 51).map mkRec).foldl pushHistory []
        = ((List.range 51).map mkRec).drop 1
    ∧ (((List.range 51).map mkRec).foldl pushHistory []).length = 50
    ∧ ∀ r ∈ ((List.range 51).map mkRec).take 1,
        r ∉ ((List.range 51).map mkRec).foldl pushHistory [] :=
  rollHistory_after_51 _ (by simp)
    ((List.nodup_range 51).map
      (fun a b hab => congrArg RollRecord.timestamp hab))

theorem diceFaces_pos {s : String} {f : Nat} (h : diceFaces s = some f) :
    0 < f := by
  unfold diceFaces at h
  split at h <;> simp_all <;> omega

/-- Per-group property of the advantage/disadvantage branch of the roll
loop: the subtotal is the sum of the recorded final values, and every entry
retains both raw draws, each in `[1, faces]`, combined by `max` under
advantage and by `min` otherwise. -/
theorem rollGroup_spec (rng : Nat → Nat) (advantage disadvantage : Bool)
    (faces : Nat) (hf : 0 < faces)
    (hb : (advantage || disadvantage) = true) :
    ∀ q k,
      (rollGroup rng advantage disadvantage faces q k).2.1
          = rollsTotal (rollGroup rng advantage disadvantage faces q k).1
      ∧ ∀ e ∈ (rollGroup rng advantage disadvantage faces q k).1, ∃ r1 r2,
          e = RollEntry.advDis r1 r2
                (if advantage then max r1 r2 else min r1 r2)
                advantage disadvantage
          ∧ 1 ≤ r1 ∧ r1 ≤ faces ∧ 1 ≤ r2 ∧ r2 ≤ faces := by
  intro q
  induction q with
  | zero => intro k; simp [rollGroup, rollsTotal]
  | succ n ih =>
      intro k
      have ih2 := ih (k + 2)
      constructor
      · simp only [rollGroup, hb, if_true, rollsTotal, List.map_cons,
          List.sum_cons, RollEntry.finalValue]
        rw [ih2.1]
        rfl
      · intro e he
        simp only [rollGroup, hb, if_true, List.mem_cons] at he
        rcases he with he | he
        · refine ⟨rng k % faces + 1, rng (k + 1) % faces + 1, he, ?_, ?_, ?_, ?_⟩
          · omega
          · exact Nat.succ_le_of_lt (Nat.mod_lt _ hf)
          · omega
          · exact Nat.succ_le_of_lt (Nat.mod_lt _ hf)
        · exact ih2.2 e he

/-- The property **C4** claims of the `roll-dice` handler when advantage or
disadvantage is set: the grand total is the sum of the per-die subtotals,
each subtotal is the sum of its entries' final values, and each entry is an
advantage/disadvantage record retaining both raw draws in `[1, faces]`
combined by `max` (advantage) or `min` (disadvantage). -/
def AdvantageRollSpec (rng : Nat → Nat) (advantage disadvantage : Bool)
    (dice : List (String × Int)) (k : Nat) : Prop :=
  (rollAll rng advantage disadvantage dice k).2.1
      = subtotalsSum (rollAll rng advantage disadvantage dice k).1
  ∧ ∀ p ∈ (rollAll rng advantage disadvantage dice k).1,
      ∃ faces, diceFaces p.1 = some faces
        ∧ p.2.subtotal = rollsTotal p.2.rolls
        ∧ ∀ e ∈ p.2.rolls, ∃ r1 r2,
            e = RollEntry.advDis r1 r2
                  (if advantage then max r1 r2 else min r1 r2)
                  advantage disadvantage
            ∧ 1 ≤ r1 ∧ r1 ≤ faces ∧ 1 ≤ r2 ∧ r2 ≤ faces

/-- **C4**: for every `roll-dice` request with advantage (or disadvantage)
set, every positive-quantity die of a valid type produces rolls recorded as
two raw draws in `[1, faces]` with the final value `max` (advantage) or
`min` (disadvantage) of the two, both draws retained, and the grand total
equal to the sum of the per-die subtotals of final values. -/
theorem rollDice_advantage_spec (rng : Nat → Nat)
    (advantage disadvantage : Bool) (dice : List (String × Int)) (k : Nat)
    (had : advantage = true ∨ disadvantage = true) :
    AdvantageRollSpec rng advantage disadvantage dice k := by
  have hb : (advantage || disadvantage) = true := by
    rcases had with h | h <;> simp [h]
  unfold AdvantageRollSpec
  induction dice generalizing k with
  | nil => simp [rollAll, subtotalsSum]
  | cons p rest ih =>
      obtain ⟨dt, q⟩ := p
      cases hdf : diceFaces dt with
      | none => simpa only [rollAll, hdf] using ih k
      | some faces =>
          by_cases hq : 0 < q
          · have hf : 0 < faces := diceFaces_pos hdf
            have hg := rollGroup_spec rng advantage disadvantage faces hf hb
              q.toNat k
            have hr := ih
              ((rollGroup rng advantage disadvantage faces q.toNat k).2.2)
            constructor
            · simp only [rollAll, hdf, hq, if_true, subtotalsSum,
                List.map_cons, List.sum_cons]
              rw [hr.1]
              rfl
            · intro pr hpr
              simp only [rollAll, hdf, hq, if_true, List.mem_cons] at hpr
              rcases hpr with hpr | hpr
              · subst hpr
                exact ⟨faces, hdf, hg.1, hg.2⟩
              · exact hr.2 pr hpr
          · simpa only [rollAll, hdf, hq, if_false] using ih k

/-- Witness for **C4** at a concrete advantage roll of one d20. -/
theorem rollDice_advantage_spec_witness :
    AdvantageRollSpec (fun _ => 0) true false [("d20", 1)] 0 :=
  rollDice_advantage_spec (fun _ => 0) true false [("d20", 1)] 0 (Or.inl rfl)

/-! ## Combat and battlefield model
(`add-monster` 303-358, `update-hp` 360-379, `batch-delete-monsters` 401-445,
`move-piece` 562-614 of `src/unnamed/part_004`) -/

/-- A stored monster record. -/
structure Monster where
  id : String
  name : String
  type : String
  currentHp : Int
  maxHp : Int
  tempHp : Int
  conditions : String
  isLocked : Bool
deriving DecidableEq, Repr

/-- In-memory combat session `{monsters, monsterOrder, lastUpdated}`. -/
structure CombatState where
  monsters : List (String × Monster)
  monsterOrder : List String
  lastUpdated : Nat
deriving DecidableEq, Repr

/-- A battlefield piece `{id, x, y, name, type, currentHp, maxHp}`
(coordinates are modelled as integers). -/
structure Piece where
  id : String
  x : Int
  y : Int
  name : String
  type : String
  currentHp : Int
  maxHp : Int
deriving DecidableEq, Repr

/-- In-memory battlefield session. -/
structure BattlefieldState where
  pieces : List (String × Piece)
  backgroundImage : Option String
  scale : Rat
  isGridVisible : Bool
  pieceSize : Rat
  lastUpdated : Nat
deriving DecidableEq, Repr

/-- The default battlefield session created by `getBattlefieldSession` on
first touch of a session id. -/
def mkBattlefield (now : Nat) : BattlefieldState :=
  { pieces := [], backgroundImage := none, scale := 1, isGridVisible := true,
    pieceSize := 40, lastUpdated := now }

/-- The client monster payload of `add-monster`; every field except `id` may
be missing. -/
structure MonsterInput where
  id : String
  name : Option String
  type : Option String
  currentHp : Option Int
  maxHp : Option Int
  tempHp : Option Int
  conditions : Option String
  isLocked : Option Bool
deriving DecidableEq, Repr

/-- The `newMonsterData` record assembled by the `add-monster` handler
(`||`-defaulting on each field). -/
def normalizeMonster (m : MonsterInput) : Monster :=
  { id := m.id
    name := jsOrStrOpt m.name "Unnamed Monster"
    type := jsOrStrOpt m.type "monster"
    currentHp := jsOrIntOpt m.currentHp 0
    maxHp := jsOrIntOpt m.maxHp 100
    tempHp := jsOrIntOpt m.tempHp 0
    conditions := jsOrStrOpt m.conditions "[]"
    isLocked := jsOrBoolOpt m.isLocked false }

/-- The default position of a newly added battlefield piece, derived from
the piece count before the insertion. -/
def defaultPiecePos (count : Nat) : Int × Int :=
  (50 + ((count : Int) % 10) * 50, 50 + ((count / 10 : Nat) : Int) * 50)

/-- The `add-monster` handler's state mutation: inserts/overwrites the
monster, appends its id to `monsterOrder` if absent, and creates a
battlefield piece at the default grid position if none exists yet. -/
def addMonster (cs : CombatState) (bs : BattlefieldState) (m : MonsterInput)
    (now : Nat) : CombatState × BattlefieldState :=
  let nm := normalizeMonster m
  let cs' : CombatState :=
    { monsters := setKey cs.monsters m.id nm
      monsterOrder :=
        if m.id ∈ cs.monsterOrder then cs.monsterOrder
        else cs.monsterOrder ++ [m.id]
      lastUpdated := now }
  match getKey bs.pieces m.id with
  | some _ => (cs', bs)
  | none =>
      let count := bs.pieces.length
      let piece : Piece :=
        { id := m.id
          x := (defaultPiecePos count).1
          y := (defaultPiecePos count).2
          name := nm.name
          type := nm.type
          currentHp := nm.currentHp
          maxHp := nm.maxHp }
      (cs', { bs with pieces := setKey bs.pieces m.id piece
                      lastUpdated := now })

/-- The `update-hp` handler's state mutation; the returned flag records
whether a monster was found (and hence a broadcast and persist occurred). -/
def updateHp (cs : CombatState) (monsterId : String) (currentHp maxHp : Int)
    (tempHp : Option Int) (now : Nat) : CombatState × Bool :=
  match getKey cs.monsters monsterId with
  | some mon =>
      let mon' : Monster :=
        { mon with currentHp := currentHp
                   maxHp := maxHp
                   tempHp := match tempHp with
                             | none => mon.tempHp
                             | some t => t }
      ({ cs with monsters := setKey cs.monsters monsterId mon'
                 lastUpdated := now }, true)
  | none => (cs, false)

/-- Events broadcast by the combat/battlefield handlers. -/
inductive CombatEvent where
  | monstersDeleted (monsterIds : List String)
  | monstersReordered (order : List String)
  | battlefieldUpdated (state : BattlefieldState)
  | pieceMoved (pieceId : String) (x y : Int)
deriving DecidableEq, Repr

/-- The loop body of `batch-delete-monsters` for one id: delete from
`monsters` (recording actually deleted ids), delete from battlefield
`pieces`, and splice the first occurrence out of `monsterOrder`. -/
structure BatchDeleteAcc where
  cs : CombatState
  bs : BattlefieldState
  changed : Bool
  deletedIds : List String
deriving DecidableEq, Repr

def batchDeleteStep (acc : BatchDeleteAcc) (id : String) : BatchDeleteAcc :=
  let a1 :=
    if getKey acc.cs.monsters id ≠ none then
      { acc with cs := { acc.cs with monsters := delKey acc.cs.monsters id }
                 deletedIds := acc.deletedIds ++ [id]
                 changed := true }
    else acc
  let a2 :=
    if getKey a1.bs.pieces id ≠ none then
      { a1 with bs := { a1.bs with pieces := delKey a1.bs.pieces id }
                changed := true }
    else a1
  if id ∈ a2.cs.monsterOrder then
    { a2 with cs := { a2.cs with monsterOrder := a2.cs.monsterOrder.erase id }
              changed := true }
  else a2

/-- The `batch-delete-monsters` handler: processes each requested id, then —
only if anything changed — stamps both sessions, broadcasts the deleted ids,
the updated order and the battlefield snapshot, and persists.  The final
flag records whether a persist was scheduled. -/
def batchDeleteMonsters (cs : CombatState) (bs : BattlefieldState)
    (monsterIds : List String) (now : Nat) :
    CombatState × BattlefieldState × List CombatEvent × Bool :=
  let acc := monsterIds.foldl batchDeleteStep
    { cs := cs, bs := bs, changed := false, deletedIds := [] }
  if acc.changed then
    let cs' := { acc.cs with lastUpdated := now }
    let bs' := { acc.bs with lastUpdated := now }
    (cs', bs',
     [CombatEvent.monstersDeleted acc.deletedIds,
      CombatEvent.monstersReordered cs'.monsterOrder,
      CombatEvent.battlefieldUpdated bs'], true)
  else (cs, bs, [], false)

/-- The `move-piece` handler: moves an existing piece, or creates it from
the corresponding combat monster; if that monster does not exist either,
the request is dropped with no state change, no broadcast and no persist. -/
structure MoveResult where
  battlefield : BattlefieldState
  events : List CombatEvent
  persisted : Bool
deriving DecidableEq, Repr

def movePiece (cs : CombatState) (bs : BattlefieldState) (pieceId : String)
    (x y : Int) (now : Nat) : MoveResult :=
  match getKey bs.pieces pieceId with
  | none =>
      match getKey cs.monsters pieceId with
      | some monsterInfo =>
          let piece : Piece :=
            { id := pieceId
              x := x
              y := y
              name := jsOrStr monsterInfo.name "Unknown Piece"
              type := jsOrStr monsterInfo.type "monster"
              currentHp := jsOrInt monsterInfo.currentHp 0
              maxHp := jsOrInt monsterInfo.maxHp 0 }
          let bs' := { bs with pieces := setKey bs.pieces pieceId piece
                               lastUpdated := now }
          { battlefield := bs'
            events := [CombatEvent.battlefieldUpdated bs']
            persisted := true }
      | none => { battlefield := bs, events := [], persisted := false }
  | some p =>
      let bs' :=
        { bs with pieces := setKey bs.pieces pieceId { p with x := x, y := y }
                  lastUpdated := now }
      { battlefield := bs'
        events := [CombatEvent.pieceMoved pieceId x y]
        persisted := true }

/-- **C5**: `add-monster` with a valid monster id inserts/overwrites the
monster record, appends its id to `monsterOrder` only if not already
present, and creates a battlefield piece at
`x = 50 + (count mod 10) * 50`, `y = 50 + floor(count / 10) * 50`
— where `count` is the piece count immediately before the insertion —
only when no piece with that id exists. -/
theorem addMonster_spec (cs : CombatState) (bs : BattlefieldState)
    (m : MonsterInput) (now : Nat) (_hid : m.id ≠ "") :
    getKey (addMonster cs bs m now).1.monsters m.id
        = some (normalizeMonster m)
    ∧ (addMonster cs bs m now).1.monsterOrder
        = (if m.id ∈ cs.monsterOrder then cs.monsterOrder
           else cs.monsterOrder ++ [m.id])
    ∧ (getKey bs.pieces m.id = none →
        (addMonster cs bs m now).2.pieces
          = setKey bs.pieces m.id
              { id := m.id
                x := 50 + ((bs.pieces.length : Int) % 10) * 50
                y := 50 + ((bs.pieces.length / 10 : Nat) : Int) * 50
                name := (normalizeMonster m).name
                type := (normalizeMonster m).type
                currentHp := (normalizeMonster m).currentHp
                maxHp := (normalizeMonster m).maxHp })
    ∧ (∀ p, getKey bs.pieces m.id = some p → (addMonster cs bs m now).2 = bs) := by
  refine ⟨?_, ?_, ?_, ?_⟩
  · unfold addMonster
    cases h : getKey bs.pieces m.id <;>
      simp [getKey_setKey_self]
  · unfold addMonster
    cases h : getKey bs.pieces m.id <;> simp
  · intro h
    unfold addMonster
    rw [h]
    simp [defaultPiecePos]
  · intro p h
    unfold addMonster
    rw [h]

/-- Witness for **C5**: adding a fresh monster to empty sessions. -/
theorem addMonster_spec_witness :
    getKey (addMonster ⟨[], [], 0⟩ (mkBattlefield 0)
        ⟨"m1", none, none, none, none, none, none, none⟩ 5).1.monsters "m1"
      = some (normalizeMonster ⟨"m1", none, none, none, none, none, none, none⟩) :=
  (addMonster_spec ⟨[], [], 0⟩ (mkBattlefield 0)
    ⟨"m1", none, none, none, none, none, none, none⟩ 5 (by decide)).1

/-- **C6**: a `move-piece` request whose piece id has no battlefield piece
and no corresponding monster is rejected: state unchanged, no broadcast,
no persist. -/
theorem movePiece_unknown_rejected (cs : CombatState) (bs : BattlefieldState)
    (pieceId : String) (x y : Int) (now : Nat)
    (hp : getKey bs.pieces pieceId = none)
    (hm : getKey cs.monsters pieceId = none) :
    movePiece cs bs pieceId x y now
      = { battlefield := bs, events := [], persisted := false } := by
  unfold movePiece
  rw [hp, hm]

/-- Witness for **C6**: moving an unknown piece in empty sessions. -/
theorem movePiece_unknown_rejected_witness :
    movePiece ⟨[], [], 0⟩ (mkBattlefield 0) "ghost" 10 20 99
      = { battlefield := mkBattlefield 0, events := [], persisted := false } :=
  movePiece_unknown_rejected ⟨[], [], 0⟩ (mkBattlefield 0) "ghost" 10 20 99
    rfl rfl

/-- **C10**: `update-hp` on an existing monster changes only its
`currentHp`, `maxHp`, `tempHp` and the session's `lastUpdated`; an absent
`tempHp` in the request preserves the previous value; the remaining fields
of the monster, all other monsters, and `monsterOrder` are unchanged. -/
theorem updateHp_frame (cs : CombatState) (monsterId : String)
    (currentHp maxHp : Int) (tempHp : Option Int) (now : Nat) (mon : Monster)
    (hmon : getKey cs.monsters monsterId = some mon) :
    getKey (updateHp cs monsterId currentHp maxHp tempHp now).1.monsters
        monsterId
      = some { mon with currentHp := currentHp
                        maxHp := maxHp
                        tempHp := tempHp.getD mon.tempHp }
    ∧ (∀ k, k ≠ monsterId →
        getKey (updateHp cs monsterId currentHp maxHp tempHp now).1.monsters k
          = getKey cs.monsters k)
    ∧ (updateHp cs monsterId currentHp maxHp tempHp now).1.monsterOrder
        = cs.monsterOrder
    ∧ (updateHp cs monsterId currentHp maxHp tempHp now).1.lastUpdated = now
    ∧ (updateHp cs monsterId currentHp maxHp tempHp now).2 = true := by
  refine ⟨?_, ?_, ?_, ?_, ?_⟩
  · unfold updateHp
    rw [hmon]
    cases tempHp <;> simp [getKey_setKey_self, Option.getD]
  · intro k hk
    unfold updateHp
    rw [hmon]
    exact getKey_setKey_ne _ _ _ _ (Ne.symm hk)
  · unfold updateHp; rw [hmon]
  · unfold updateHp; rw [hmon]
  · unfold updateHp; rw [hmon]

/-- Witness for **C10**: updating HP of the only monster of a session,
without a `tempHp` field in the request. -/
theorem updateHp_frame_witness :
    getKey (updateHp
        ⟨[("m1", { id := "m1", name := "goblin", type := "monster",
                   currentHp := 7, maxHp := 7, tempHp := 3,
                   conditions := "[]", isLocked := false })], ["m1"], 0⟩
        "m1" 5 9 none 42).1.monsters "m1"
      = some { id := "m1", name := "goblin", type := "monster",
               currentHp := 5, maxHp := 9, tempHp := 3,
               conditions := "[]", isLocked := false } :=
  (updateHp_frame
    ⟨[("m1", { id := "m1", name := "goblin", type := "monster",
               currentHp := 7, maxHp := 7, tempHp := 3,
               conditions := "[]", isLocked := false })], ["m1"], 0⟩
    "m1" 5 9 none 42
    { id := "m1", name := "goblin", type := "monster",
      currentHp := 7, maxHp := 7, tempHp := 3,
      conditions := "[]", isLocked := false } (by simp [getKey])).1

theorem delKey_of_getKey_none {α : Type} {m : List (String × α)}
    {k : String} (h : getKey m k = none) : delKey m k = m := by
  induction m with
  | nil => rfl
  | cons p rest ih =>
      by_cases hp : p.1 = k
      · rw [getKey, if_pos hp] at h
        exact absurd h (by simp)
      · rw [getKey, if_neg hp] at h
        rw [delKey, if_neg hp, ih h]

theorem batchDeleteStep_monsters (acc : BatchDeleteAcc) (id : String) :
    (batchDeleteStep acc id).cs.monsters = delKey acc.cs.monsters id := by
  unfold batchDeleteStep
  by_cases h1 : getKey acc.cs.monsters id = none <;>
    by_cases h2 : getKey acc.bs.pieces id = none <;>
      by_cases h3 : id ∈ acc.cs.monsterOrder <;>
        simp [h1, h2, h3, delKey_of_getKey_none]

theorem batchDeleteStep_pieces (acc : BatchDeleteAcc) (id : String) :
    (batchDeleteStep acc id).bs.pieces = delKey acc.bs.pieces id := by
  unfold batchDeleteStep
  by_cases h1 : getKey acc.cs.monsters id = none <;>
    by_cases h2 : getKey acc.bs.pieces id = none <;>
      by_cases h3 : id ∈ acc.cs.monsterOrder <;>
        simp [h1, h2, h3, delKey_of_getKey_none]

theorem batchDeleteStep_order (acc : BatchDeleteAcc) (id : String) :
    (batchDeleteStep acc id).cs.monsterOrder
      = acc.cs.monsterOrder.erase id := by
  unfold batchDeleteStep
  by_cases h1 : getKey acc.cs.monsters id = none <;>
    by_cases h2 : getKey acc.bs.pieces id = none <;>
      by_cases h3 : id ∈ acc.cs.monsterOrder <;>
        simp [h1, h2, h3, List.erase_of_not_mem]

theorem batchDeleteStep_deletedIds (acc : BatchDeleteAcc) (id : String) :
    (batchDeleteStep acc id).deletedIds
      = acc.deletedIds
        ++ (if getKey acc.cs.monsters id = none then [] else [id]) := by
  unfold batchDeleteStep
  by_cases h1 : getKey acc.cs.monsters id = none <;>
    by_cases h2 : getKey acc.bs.pieces id = none <;>
      by_cases h3 : id ∈ acc.cs.monsterOrder <;>
        simp [h1, h2, h3]

theorem batchDeleteStep_noop (acc : BatchDeleteAcc) (id : String)
    (h1 : getKey acc.cs.monsters id = none)
    (h2 : getKey acc.bs.pieces id = none)
    (h3 : id ∉ acc.cs.monsterOrder) :
    batchDeleteStep acc id = acc := by
  unfold batchDeleteStep
  simp [h1, h2, h3]

theorem foldBatchDelete_noop (monsterIds : List String)
    (acc : BatchDeleteAcc)
    (h : ∀ id ∈ monsterIds, getKey acc.cs.monsters id = none
        ∧ getKey acc.bs.pieces id = none ∧ id ∉ acc.cs.monsterOrder) :
    monsterIds.foldl batchDeleteStep acc = acc := by
  induction monsterIds with
  | nil => rfl
  | cons id rest ih =>
      have h0 := h id (List.mem_cons_self id rest)
      rw [List.foldl_cons, batchDeleteStep_noop acc id h0.1 h0.2.1 h0.2.2]
      exact ih (fun i hi => h i (List.mem_cons_of_mem id hi))

/-- Absence of an id from all three components is preserved by every
further delete step, hence by the remaining fold. -/
theorem foldBatchDelete_absent (monsterIds : List String)
    (acc : BatchDeleteAcc) (x : String)
    (h1 : getKey acc.cs.monsters x = none)
    (h2 : getKey acc.bs.pieces x = none)
    (h3 : x ∉ acc.cs.monsterOrder) :
    getKey (monsterIds.foldl batchDeleteStep acc).cs.monsters x = none
    ∧ getKey (monsterIds.foldl batchDeleteStep acc).bs.pieces x = none
    ∧ x ∉ (monsterIds.foldl batchDeleteStep acc).cs.monsterOrder := by
  induction monsterIds generalizing acc with
  | nil => exact ⟨h1, h2, h3⟩
  | cons id rest ih =>
      rw [List.foldl_cons]
      refine ih (batchDeleteStep acc id) ?_ ?_ ?_
      · rw [batchDeleteStep_monsters]
        exact getKey_delKey_of_none _ _ _ h1
      · rw [batchDeleteStep_pieces]
        exact getKey_delKey_of_none _ _ _ h2
      · rw [batchDeleteStep_order]
        exact fun hc => h3 (List.mem_of_mem_erase hc)

theorem batchDeleteStep_nodup (acc : BatchDeleteAcc) (id : String)
    (h : acc.cs.monsterOrder.Nodup) :
    (batchDeleteStep acc id).cs.monsterOrder.Nodup := by
  rw [batchDeleteStep_order]
  exact h.erase id

/-- After the whole fold, every requested id is gone from the monsters,
the pieces, and the order (the latter assuming the order had no
duplicates, which every reachable state satisfies). -/
theorem foldBatchDelete_removes (monsterIds : List String)
    (acc : BatchDeleteAcc) (hnd : acc.cs.monsterOrder.Nodup) :
    ∀ id ∈ monsterIds,
      getKey (monsterIds.foldl batchDeleteStep acc).cs.monsters id = none
      ∧ getKey (monsterIds.foldl batchDeleteStep acc).bs.pieces id = none
      ∧ id ∉ (monsterIds.foldl batchDeleteStep acc).cs.monsterOrder := by
  induction monsterIds generalizing acc with
  | nil => intro id hid; exact absurd hid (List.not_mem_nil id)
  | cons i rest ih =>
      intro id hid
      rw [List.foldl_cons]
      rcases List.mem_cons.mp hid with hid | hid
      · subst hid
        refine foldBatchDelete_absent rest (batchDeleteStep acc id) id ?_ ?_ ?_
        · rw [batchDeleteStep_monsters]
          exact getKey_delKey_self _ _
        · rw [batchDeleteStep_pieces]
          exact getKey_delKey_self _ _
        · rw [batchDeleteStep_order]
          exact hnd.not_mem_erase
      · exact ih (batchDeleteStep acc i) (batchDeleteStep_nodup acc i hnd)
          id hid

/-- Characterization of the `deletedIds` accumulator: exactly the requested
ids that were present in the monster map when the request started. -/
theorem foldBatchDelete_deletedIds (monsterIds : List String)
    (acc : BatchDeleteAcc) (x : String) :
    x ∈ (monsterIds.foldl batchDeleteStep acc).deletedIds
      ↔ x ∈ acc.deletedIds
        ∨ (x ∈ monsterIds ∧ getKey acc.cs.monsters x ≠ none) := by
  induction monsterIds generalizing acc with
  | nil => simp
  | cons i rest ih =>
      rw [List.foldl_cons]
      rw [ih (batchDeleteStep acc i)]
      rw [batchDeleteStep_deletedIds, batchDeleteStep_monsters]
      by_cases hx : x = i
      · subst hx
        by_cases hp : getKey acc.cs.monsters x = none
        · simp [hp, getKey_delKey_self]
        · simp [hp, getKey_delKey_self]
          try tauto
      · rw [getKey_delKey_ne _ _ _ (fun hc => hx hc.symm)]
        by_cases hp : getKey acc.cs.monsters i = none
        · simp [hp, hx]
          try tauto
        · simp [hp, hx]
          try tauto

theorem batchDeleteStep_of_changed_false (acc : BatchDeleteAcc) (id : String)
    (h : (batchDeleteStep acc id).changed = false) :
    batchDeleteStep acc id = acc := by
  unfold batchDeleteStep at h ⊢
  by_cases h1 : getKey acc.cs.monsters id = none <;>
    by_cases h2 : getKey acc.bs.pieces id = none <;>
      by_cases h3 : id ∈ acc.cs.monsterOrder <;>
        simp_all

theorem batchDeleteStep_changed_mono (acc : BatchDeleteAcc) (id : String)
    (h : acc.changed = true) : (batchDeleteStep acc id).changed = true := by
  unfold batchDeleteStep
  by_cases h1 : getKey acc.cs.monsters id = none <;>
    by_cases h2 : getKey acc.bs.pieces id = none <;>
      by_cases h3 : id ∈ acc.cs.monsterOrder <;>
        simp_all

theorem foldBatchDelete_changed_mono (monsterIds : List String)
    (acc : BatchDeleteAcc) (h : acc.changed = true) :
    (monsterIds.foldl batchDeleteStep acc).changed = true := by
  induction monsterIds generalizing acc with
  | nil => exact h
  | cons i rest ih =>
      rw [List.foldl_cons]
      exact ih _ (batchDeleteStep_changed_mono acc i h)

theorem foldBatchDelete_of_changed_false (monsterIds : List String)
    (acc : BatchDeleteAcc)
    (h : (monsterIds.foldl batchDeleteStep acc).changed = false) :
    monsterIds.foldl batchDeleteStep acc = acc := by
  induction monsterIds generalizing acc with
  | nil => rfl
  | cons i rest ih =>
      rw [List.foldl_cons] at h ⊢
      have hstep : (batchDeleteStep acc i).changed = false := by
        cases hb : (batchDeleteStep acc i).changed
        · rfl
        · exact absurd (foldBatchDelete_changed_mono rest _ hb) (by simp [h])
      rw [batchDeleteStep_of_changed_false acc i hstep] at h ⊢
      exact ih acc h

/-- **C8**: `batch-delete-monsters` removes each present id from
`monsters`, from `monsterOrder` and from battlefield `pieces`; the
`monsters-deleted` broadcast lists exactly the ids actually removed from
`monsters`; and if none of the supplied ids is present anywhere, the
operation is a no-op with no broadcast and no persist. -/
theorem batchDelete_spec (cs : CombatState) (bs : BattlefieldState)
    (monsterIds : List String) (now : Nat) (hnd : cs.monsterOrder.Nodup) :
    (∀ id ∈ monsterIds,
        getKey (batchDeleteMonsters cs bs monsterIds now).1.monsters id = none
        ∧ getKey (batchDeleteMonsters cs bs monsterIds now).2.1.pieces id
            = none
        ∧ id ∉ (batchDeleteMonsters cs bs monsterIds now).1.monsterOrder)
    ∧ (∀ x,
        x ∈ (monsterIds.foldl batchDeleteStep
            { cs := cs, bs := bs, changed := false,
              deletedIds := [] }).deletedIds
          ↔ x ∈ monsterIds ∧ getKey cs.monsters x ≠ none)
    ∧ ((monsterIds.foldl batchDeleteStep
          { cs := cs, bs := bs, changed := false, deletedIds := [] }).changed
            = true →
        (batchDeleteMonsters cs bs monsterIds now).2.2.1
          = [CombatEvent.monstersDeleted
               (monsterIds.foldl batchDeleteStep
                 { cs := cs, bs := bs, changed := false,
                   deletedIds := [] }).deletedIds,
             CombatEvent.monstersReordered
               (monsterIds.foldl batchDeleteStep
                 { cs := cs, bs := bs, changed := false,
                   deletedIds := [] }).cs.monsterOrder,
             CombatEvent.battlefieldUpdated
               { (monsterIds.foldl batchDeleteStep
                   { cs := cs, bs := bs, changed := false,
                     deletedIds := [] }).bs with lastUpdated := now }])
    ∧ ((∀ id ∈ monsterIds, getKey cs.monsters id = none
          ∧ getKey bs.pieces id = none ∧ id ∉ cs.monsterOrder) →
        batchDeleteMonsters cs bs monsterIds now = (cs, bs, [], false)) := by
  refine ⟨?_, ?_, ?_, ?_⟩
  · intro id hid
    have habs := foldBatchDelete_removes monsterIds
      { cs := cs, bs := bs, changed := false, deletedIds := [] } hnd id hid
    unfold batchDeleteMonsters
    by_cases hch : (monsterIds.foldl batchDeleteStep
        { cs := cs, bs := bs, changed := false, deletedIds := [] }).changed
        = true
    · simpa [hch] using habs
    · have heq := foldBatchDelete_of_changed_false monsterIds _
        (by simpa using hch)
      rw [heq] at habs
      simpa [hch] using habs
  · intro x
    simpa using foldBatchDelete_deletedIds monsterIds
      { cs := cs, bs := bs, changed := false, deletedIds := [] } x
  · intro hch
    unfold batchDeleteMonsters
    simp [hch]
  · intro h
    have hfold := foldBatchDelete_noop monsterIds
      { cs := cs, bs := bs, changed := false, deletedIds := [] }
      (fun i hi => h i hi)
    unfold batchDeleteMonsters
    rw [hfold]
    simp

/-- Witness for **C8**: deleting one present and one absent id from a
one-monster session. -/
theorem batchDelete_spec_witness :
    getKey (batchDeleteMonsters
        ⟨[("a", { id := "a", name := "x", type := "monster", currentHp := 1,
                  maxHp := 2, tempHp := 0, conditions := "[]",
                  isLocked := false })], ["a"], 0⟩
        (mkBattlefield 0) ["a", "b"] 3).1.monsters "a" = none
    ∧ getKey (batchDeleteMonsters
        ⟨[("a", { id := "a", name := "x", type := "monster", currentHp := 1,
                  maxHp := 2, tempHp := 0, conditions := "[]",
                  isLocked := false })], ["a"], 0⟩
        (mkBattlefield 0) ["a", "b"] 3).2.1.pieces "a" = none
    ∧ "a" ∉ (batchDeleteMonsters
        ⟨[("a", { id := "a", name := "x", type := "monster", currentHp := 1,
                  maxHp := 2, tempHp := 0, conditions := "[]",
                  isLocked := false })], ["a"], 0⟩
        (mkBattlefield 0) ["a", "b"] 3).1.monsterOrder :=
  (batchDelete_spec
    ⟨[("a", { id := "a", name := "x", type := "monster", currentHp := 1,
              maxHp := 2, tempHp := 0, conditions := "[]",
              isLocked := false })], ["a"], 0⟩
    (mkBattlefield 0) ["a", "b"] 3 (by decide)).1 "a" (by decide)

/-! ## Chunked background-image transfer
(`background-transfer-start` 632-659, `background-transfer-chunk` 661-747,
disconnect cleanup 797-814 of `src/unnamed/part_004`) -/

/-- Events emitted by the transfer handlers: failures to the whole room
(`io.to(sessionId)`), start-rejections to the sender only (`socket.emit`),
and the completion broadcast to the whole room. -/
inductive TransferEvent where
  | failedToRoom (sessionId imageId error : String)
  | failedToSender (imageId error : String)
  | completeToRoom (sessionId imageUrl : String)
deriving DecidableEq, Repr

/-- The per-transfer assembler state stored in `backgroundChunks[imageId]`;
the `setTimeout` handle is embedded as a timer id. -/
structure TransferState where
  sessionId : String
  chunks : List (Option String)
  receivedChunks : Nat
  totalChunks : Nat
  initiatorSocketId : String
  timerId : Nat
deriving DecidableEq, Repr

/-- The global transfer table together with the set of armed timers and a
fresh-timer-id counter. -/
structure TransferRegistry where
  transfers : List (String × TransferState)
  armed : List Nat
  nextTimer : Nat
deriving DecidableEq, Repr

/-- A `background-transfer-start` message. -/
structure StartMsg where
  sessionId : String
  imageId : String
  totalChunks : Nat
deriving DecidableEq, Repr

/-- A `background-transfer-chunk` message. -/
structure ChunkMsg where
  sessionId : String
  imageId : String
  chunkIndex : Int
  chunk : String
  isLastChunk : Bool
deriving DecidableEq, Repr

/-- JS read `transfer.chunks[chunkIndex]`: out-of-range reads yield
`undefined`, embedded as an empty slot. -/
def slotAt (chunks : List (Option String)) (i : Int) : Option String :=
  if h : 0 ≤ i ∧ i.toNat < chunks.length then chunks.get ⟨i.toNat, h.2⟩
  else none

/-- JS truthiness of a chunk slot (`undefined` and `""` are falsy). -/
def slotTruthy (s : Option String) : Bool :=
  match s with
  | some str => !(str == "")
  | none => false

/-- `transfer.chunks.join('')`: concatenation in index order, holes
contributing the empty string. -/
def joinChunks (chunks : List (Option String)) : String :=
  chunks.foldl (fun acc c => acc ++ c.getD "") ""

/-- The completion check at the end of the `background-transfer-chunk`
handler: fires exactly when the received count equals `totalChunks`; clears
the current timer, reconstructs by concatenating the slots in index order,
rejects reconstructions above 10 MiB (failure to the whole room), and
otherwise stores the image in the owning battlefield session and notifies
the whole room; the assembler is discarded in both terminal cases. -/
def completionCheck (reg : TransferRegistry)
    (bfs : List (String × BattlefieldState)) (imageId : String)
    (t : TransferState) (now : Nat) :
    TransferRegistry × List (String × BattlefieldState) × List TransferEvent :=
  if t.receivedChunks = t.totalChunks then
    let reg1 : TransferRegistry :=
      { reg with armed := reg.armed.erase t.timerId }
    let fullImageUrl := joinChunks t.chunks
    if 10 * 1024 * 1024 < fullImageUrl.length then
      ({ reg1 with transfers := delKey reg1.transfers imageId }, bfs,
       [TransferEvent.failedToRoom t.sessionId imageId
          "Image too large after reconstruction"])
    else
      let battlefield := (getKey bfs t.sessionId).getD (mkBattlefield now)
      let battlefield' :=
        { battlefield with backgroundImage := some fullImageUrl
                           lastUpdated := now }
      ({ reg1 with transfers := delKey reg1.transfers imageId },
       setKey bfs t.sessionId battlefield',
       [TransferEvent.completeToRoom t.sessionId fullImageUrl])
  else (reg, bfs, [])

/-- The `background-transfer-chunk` handler: validation, unknown/mismatched
transfer drop, the 600 KiB chunk-size abort, the store/duplicate/bad-index
trichotomy (with timer rearm on store), then the completion check.  The
`isLastChunk` field of the message is never consulted. -/
def handleBackgroundChunk (reg : TransferRegistry)
    (bfs : List (String × BattlefieldState)) (msg : ChunkMsg) (now : Nat) :
    TransferRegistry × List (String × BattlefieldState) × List TransferEvent :=
  if msg.sessionId = "" ∨ msg.imageId = "" ∨ msg.chunk = "" then (reg, bfs, [])
  else
    match getKey reg.transfers msg.imageId with
    | none => (reg, bfs, [])
    | some t =>
        if t.sessionId ≠ msg.sessionId then (reg, bfs, [])
        else if 600 * 1024 < msg.chunk.length then
          ({ reg with transfers := delKey reg.transfers msg.imageId
                      armed := reg.armed.erase t.timerId }, bfs,
           [TransferEvent.failedToRoom msg.sessionId msg.imageId
              "Chunk too large"])
        else if 0 ≤ msg.chunkIndex ∧ msg.chunkIndex < (t.totalChunks : Int)
            ∧ slotTruthy (slotAt t.chunks msg.chunkIndex) = false then
          let t' : TransferState :=
            { t with chunks := t.chunks.set msg.chunkIndex.toNat (some msg.chunk)
                     receivedChunks := t.receivedChunks + 1
                     timerId := reg.nextTimer }
          let reg' : TransferRegistry :=
            { reg with transfers := setKey reg.transfers msg.imageId t'
                       armed := reg.armed.erase t.timerId ++ [reg.nextTimer]
                       nextTimer := reg.nextTimer + 1 }
          completionCheck reg' bfs msg.imageId t' now
        else if slotTruthy (slotAt t.chunks msg.chunkIndex) = true then
          completionCheck reg bfs msg.imageId t now
        else
          ({ reg with transfers := delKey reg.transfers msg.imageId
                      armed := reg.armed.erase t.timerId }, bfs,
           [TransferEvent.failedToRoom msg.sessionId msg.imageId
              "Invalid chunk index"])

/-- The `background-transfer-start` handler: validates, rejects more than
100 chunks (failure to the sender only), then unconditionally installs a
fresh assembler for `imageId` — overwriting any in-flight one — and arms a
new 60-second timer without cancelling the previous transfer's timer. -/
def handleBackgroundStart (reg : TransferRegistry) (socketId : String)
    (msg : StartMsg) : TransferRegistry × List TransferEvent :=
  if msg.sessionId = "" ∨ msg.imageId = "" ∨ msg.totalChunks = 0 then
    (reg, [])
  else if 100 < msg.totalChunks then
    (reg, [TransferEvent.failedToSender msg.imageId "Too many chunks"])
  else
    ({ reg with
        transfers := setKey reg.transfers msg.imageId
          { sessionId := msg.sessionId
            chunks := List.replicate msg.totalChunks none
            receivedChunks := 0
            totalChunks := msg.totalChunks
            initiatorSocketId := socketId
            timerId := reg.nextTimer }
        armed := reg.armed ++ [reg.nextTimer]
        nextTimer := reg.nextTimer + 1 }, [])

/-- The timeout callback armed by the transfer handlers: it captured the
session and image ids at arm time; when it fires (only an armed timer can
fire) it deletes whatever assembler currently occupies `imageId` — without
checking that it belongs to the transfer that armed it — and notifies the
room. -/
def timerFire (reg : TransferRegistry) (firedTimer : Nat)
    (sessionId imageId : String) : TransferRegistry × List TransferEvent :=
  let reg0 : TransferRegistry :=
    { reg with armed := reg.armed.erase firedTimer }
  if getKey reg.transfers imageId ≠ none then
    ({ reg0 with transfers := delKey reg0.transfers imageId },
     [TransferEvent.failedToRoom sessionId imageId "Timeout"])
  else (reg0, [])

/-- Apply a sequence of chunk messages in order, accumulating events. -/
def runChunks (reg : TransferRegistry)
    (bfs : List (String × BattlefieldState)) (now : Nat) :
    List ChunkMsg →
    TransferRegistry × List (String × BattlefieldState) × List TransferEvent
  | [] => (reg, bfs, [])
  | msg :: rest =>
      let step := handleBackgroundChunk reg bfs msg now
      let next := runChunks step.1 step.2.1 now rest
      (next.1, next.2.1, step.2.2 ++ next.2.2)

/-- **C7**: a chunk whose payload exceeds 600 KiB aborts the whole transfer
at any index: the assembler is freed, its timer cleared, exactly one
failure event is emitted — addressed to the whole room — and the
battlefield sessions (hence `backgroundImage`) are untouched. -/
theorem chunkTooLarge_aborts (reg : TransferRegistry)
    (bfs : List (String × BattlefieldState)) (msg : ChunkMsg) (now : Nat)
    (t : TransferState)
    (ht : getKey reg.transfers msg.imageId = some t)
    (hsid : t.sessionId = msg.sessionId)
    (h1 : msg.sessionId ≠ "") (h2 : msg.imageId ≠ "") (h3 : msg.chunk ≠ "")
    (hbig : 600 * 1024 < msg.chunk.length) :
    handleBackgroundChunk reg bfs msg now
      = ({ reg with transfers := delKey reg.transfers msg.imageId
                    armed := reg.armed.erase t.timerId }, bfs,
         [TransferEvent.failedToRoom msg.sessionId msg.imageId
            "Chunk too large"]) := by
  simp [handleBackgroundChunk, ht, h1, h2, h3, hsid, hbig]

/-- Witness for **C7**: an oversized chunk (600·1024 + 1 copies of `a`)
aborts a two-chunk transfer. -/
theorem chunkTooLarge_aborts_witness :
    handleBackgroundChunk
        ⟨[("img", { sessionId := "s", chunks := [none, none],
                    receivedChunks := 0, totalChunks := 2,
                    initiatorSocketId := "sock", timerId := 0 })], [0], 1⟩
        [] ⟨"s", "img", 0, String.mk (List.replicate 614401 'a'), false⟩ 9
      = (⟨delKey [("img", { sessionId := "s", chunks := [none, none],
                            receivedChunks := 0, totalChunks := 2,
                            initiatorSocketId := "sock", timerId := 0 })]
            "img", List.erase [0] 0, 1⟩, [],
         [TransferEvent.failedToRoom "s" "img" "Chunk too large"]) :=
  have hlen : (String.mk (List.replicate 614401 'a')).length = 614401 :=
    List.length_replicate 614401 'a'
  chunkTooLarge_aborts
    ⟨[("img", { sessionId := "s", chunks := [none, none],
                receivedChunks := 0, totalChunks := 2,
                initiatorSocketId := "sock", timerId := 0 })], [0], 1⟩
    [] ⟨"s", "img", 0, String.mk (List.replicate 614401 'a'), false⟩ 9
    { sessionId := "s", chunks := [none, none], receivedChunks := 0,
      totalChunks := 2, initiatorSocketId := "sock", timerId := 0 }
    (by simp [getKey]) rfl (by decide) (by decide)
    (by
      intro h
      have h' : String.mk (List.replicate 614401 'a') = "" := h
      have h2 := congrArg String.length h'
      rw [hlen] at h2
      exact absurd h2 (by decide))
    (by
      show 600 * 1024 < (String.mk (List.replicate 614401 'a')).length
      rw [hlen]
      norm_num)

/-- **C9**: a `background-transfer-start` for an `imageId` that already has
an in-flight transfer unconditionally replaces the assembler with a fresh
one (all slots empty, received count reset to 0), emits nothing, and does
not cancel the previous transfer's inactivity timer — which stays armed
and, on firing, destroys the replacement transfer. -/
theorem restart_overwrites_and_leaks_timer (reg : TransferRegistry)
    (socketId : String) (msg : StartMsg) (told : TransferState)
    (_ht : getKey reg.transfers msg.imageId = some told)
    (h1 : msg.sessionId ≠ "") (h2 : msg.imageId ≠ "")
    (h3 : msg.totalChunks ≠ 0) (h4 : msg.totalChunks ≤ 100)
    (harm : told.timerId ∈ reg.armed) :
    getKey (handleBackgroundStart reg socketId msg).1.transfers msg.imageId
      = some { sessionId := msg.sessionId
               chunks := List.replicate msg.totalChunks none
               receivedChunks := 0
               totalChunks := msg.totalChunks
               initiatorSocketId := socketId
               timerId := reg.nextTimer }
    ∧ (handleBackgroundStart reg socketId msg).2 = []
    ∧ told.timerId ∈ (handleBackgroundStart reg socketId msg).1.armed
    ∧ getKey (timerFire (handleBackgroundStart reg socketId msg).1
        told.timerId told.sessionId msg.imageId).1.transfers msg.imageId
        = none
    ∧ (timerFire (handleBackgroundStart reg socketId msg).1
        told.timerId told.sessionId msg.imageId).2
      = [TransferEvent.failedToRoom told.sessionId msg.imageId "Timeout"] := by
  have hsk :
      getKey (handleBackgroundStart reg socketId msg).1.transfers msg.imageId
        = some { sessionId := msg.sessionId
                 chunks := List.replicate msg.totalChunks none
                 receivedChunks := 0
                 totalChunks := msg.totalChunks
                 initiatorSocketId := socketId
                 timerId := reg.nextTimer } := by
    simp [handleBackgroundStart, h1, h2, h3, Nat.not_lt.mpr h4,
      getKey_setKey_self]
  refine ⟨hsk, ?_, ?_, ?_, ?_⟩
  · simp [handleBackgroundStart, h1, h2, h3, Nat.not_lt.mpr h4]
  · simp only [handleBackgroundStart, h1, h2, h3]
    simp [Nat.not_lt.mpr h4, List.mem_append, harm]
  · rw [timerFire]
    rw [if_pos (by rw [hsk]; simp)]
    exact getKey_delKey_self _ _
  · rw [timerFire]
    rw [if_pos (by rw [hsk]; simp)]

/-- Witness for **C9**: restarting an in-flight one-chunk transfer. -/
theorem restart_overwrites_and_leaks_timer_witness :
    getKey (handleBackgroundStart
        ⟨[("img", { sessionId := "s", chunks := [some "x"],
                    receivedChunks := 1, totalChunks := 1,
                    initiatorSocketId := "sock", timerId := 0 })], [0], 1⟩
        "sock2" ⟨"s", "img", 2⟩).1.transfers "img"
      = some { sessionId := "s", chunks := List.replicate 2 none,
               receivedChunks := 0, totalChunks := 2,
               initiatorSocketId := "sock2", timerId := 1 } :=
  (restart_overwrites_and_leaks_timer
    ⟨[("img", { sessionId := "s", chunks := [some "x"],
                receivedChunks := 1, totalChunks := 1,
                initiatorSocketId := "sock", timerId := 0 })], [0], 1⟩
    "sock2" ⟨"s", "img", 2⟩
    { sessionId := "s", chunks := [some "x"], receivedChunks := 1,
      totalChunks := 1, initiatorSocketId := "sock", timerId := 0 }
    (by simp [getKey]) (by decide) (by decide) (by decide) (by decide)
    (by decide)).1

/-- The canonical slot array of a transfer of `n` chunks after exactly the
indices in `S` have been stored (payload of index `i` being `f i`). -/
def filledSlots (f : Nat → String) (n : Nat) (S : List Nat) :
    List (Option String) :=
  (List.range n).map (fun i => if i ∈ S then some (f i) else none)

/-- The reconstruction produced by an in-order arrival of all `n` chunks:
concatenation of `f 0, f 1, …, f (n-1)` in index order. -/
def fullImage (f : Nat → String) (n : Nat) : String :=
  joinChunks ((List.range n).map (fun i => some (f i)))

/-- The chunk message delivering index `i` of transfer `iid`. -/
def mkChunkMsg (sid iid : String) (f : Nat → String) (flags : Nat → Bool)
    (i : Nat) : ChunkMsg :=
  { sessionId := sid, imageId := iid, chunkIndex := (i : Int), chunk := f i,
    isLastChunk := flags i }

/-- The in-flight-transfer invariant: the registry holds an assembler for
`iid` whose slots are exactly the chunks of `S` and whose received count is
`|S|`. -/
def TransferInv (sid iid : String) (f : Nat → String) (n : Nat)
    (S : List Nat) (reg : TransferRegistry) : Prop :=
  ∃ t : TransferState,
    getKey reg.transfers iid = some t
    ∧ t.sessionId = sid
    ∧ t.totalChunks = n
    ∧ t.chunks = filledSlots f n S
    ∧ t.receivedChunks = S.length

theorem filledSlots_length (f : Nat → String) (n : Nat) (S : List Nat) :
    (filledSlots f n S).length = n := by
  simp [filledSlots]

theorem filledSlots_nil (f : Nat → String) (n : Nat) :
    filledSlots f n [] = List.replicate n none := by
  apply List.ext_getElem
  · simp [filledSlots]
  · intro i h1 h2
    simp [filledSlots]

theorem slotAt_filledSlots (f : Nat → String) (n : Nat) (S : List Nat)
    (j : Nat) (hj : j < n) :
    slotAt (filledSlots f n S) ((j : Nat) : Int)
      = if j ∈ S then some (f j) else none := by
  have hc : 0 ≤ ((j : Nat) : Int)
      ∧ ((j : Nat) : Int).toNat < (filledSlots f n S).length :=
    ⟨Int.ofNat_nonneg j, by simpa [filledSlots_length, Int.toNat_ofNat] using hj⟩
  unfold slotAt
  rw [dif_pos hc]
  simp [filledSlots]

theorem filledSlots_set (f : Nat → String) (n : Nat) (S : List Nat)
    (j : Nat) (_hj : j < n) :
    (filledSlots f n S).set j (some (f j)) = filledSlots f n (j :: S) := by
  apply List.ext_getElem
  · simp [filledSlots]
  · intro i h1 h2
    simp only [filledSlots, List.getElem_set]
    by_cases hij : j = i
    · subst hij
      simp [List.getElem_map, List.getElem_range]
    · have hrange : i < n := by simpa [filledSlots_length] using h2
      have hij' : ¬(i = j) := fun h => hij h.symm
      simp [hij, hij', List.getElem_map, List.getElem_range, List.mem_cons]

theorem filledSlots_full (f : Nat → String) (n : Nat) (S : List Nat)
    (hfull : ∀ i < n, i ∈ S) :
    filledSlots f n S = (List.range n).map (fun i => some (f i)) := by
  unfold filledSlots
  apply List.map_congr_left
  intro i hi
  simp [hfull i (List.mem_range.mp hi)]

theorem completionCheck_pending (reg : TransferRegistry)
    (bfs : List (String × BattlefieldState)) (iid : String)
    (t : TransferState) (now : Nat)
    (h : t.receivedChunks ≠ t.totalChunks) :
    completionCheck reg bfs iid t now = (reg, bfs, []) := by
  simp [completionCheck, h]

theorem completionCheck_complete (reg : TransferRegistry)
    (bfs : List (String × BattlefieldState)) (iid : String)
    (t : TransferState) (now : Nat)
    (h : t.receivedChunks = t.totalChunks)
    (hsize : (joinChunks t.chunks).length ≤ 10 * 1024 * 1024) :
    completionCheck reg bfs iid t now
      = ({ reg with armed := reg.armed.erase t.timerId
                    transfers := delKey reg.transfers iid },
         setKey bfs t.sessionId
           { (getKey bfs t.sessionId).getD (mkBattlefield now) with
               backgroundImage := some (joinChunks t.chunks)
               lastUpdated := now },
         [TransferEvent.completeToRoom t.sessionId (joinChunks t.chunks)]) := by
  simp [completionCheck, h, Nat.not_lt.mpr hsize]

/-- An accepted chunk (valid fields, known transfer, size within bounds,
in-range index, empty slot) stores its payload, rearms the timer, and hands
over to the completion check. -/
theorem handleChunk_accept (reg : TransferRegistry)
    (bfs : List (String × BattlefieldState)) (now : Nat)
    (sid iid : String) (f : Nat → String) (flags : Nat → Bool)
    (n j : Nat) (S : List Nat) (t : TransferState)
    (hget : getKey reg.transfers iid = some t)
    (hsid : sid ≠ "") (hiid : iid ≠ "") (hfne : f j ≠ "")
    (hflen : (f j).length ≤ 600 * 1024)
    (hts : t.sessionId = sid) (htot : t.totalChunks = n)
    (hchunks : t.chunks = filledSlots f n S)
    (hj : j < n) (hjS : j ∉ S) :
    handleBackgroundChunk reg bfs (mkChunkMsg sid iid f flags j) now
      = completionCheck
          { reg with
              transfers := setKey reg.transfers iid
                { t with chunks := filledSlots f n (j :: S)
                         receivedChunks := t.receivedChunks + 1
                         timerId := reg.nextTimer }
              armed := reg.armed.erase t.timerId ++ [reg.nextTimer]
              nextTimer := reg.nextTimer + 1 }
          bfs iid
          { t with chunks := filledSlots f n (j :: S)
                   receivedChunks := t.receivedChunks + 1
                   timerId := reg.nextTimer } now := by
  have hguard : 0 ≤ ((j : Nat) : Int)
      ∧ ((j : Nat) : Int) < ((t.totalChunks : Nat) : Int)
      ∧ slotTruthy (slotAt t.chunks ((j : Nat) : Int)) = false := by
    refine ⟨Int.ofNat_nonneg j, ?_, ?_⟩
    · rw [htot]
      exact_mod_cast hj
    · rw [hchunks, slotAt_filledSlots f n S j hj, if_neg hjS]
      rfl
  unfold handleBackgroundChunk
  dsimp only [mkChunkMsg]
  rw [if_neg (by simp [hsid, hiid, hfne])]
  rw [hget]
  dsimp only
  rw [if_neg (by simp [hts])]
  rw [if_neg (Nat.not_lt.mpr hflen)]
  rw [if_pos hguard]
  rw [hchunks]
  simp only [Int.toNat_ofNat, filledSlots_set f n S j hj]

theorem runChunks_cons (reg : TransferRegistry)
    (bfs : List (String × BattlefieldState)) (now : Nat) (m : ChunkMsg)
    (ms : List ChunkMsg) :
    runChunks reg bfs now (m :: ms)
      = ((runChunks (handleBackgroundChunk reg bfs m now).1
            (handleBackgroundChunk reg bfs m now).2.1 now ms).1,
         (runChunks (handleBackgroundChunk reg bfs m now).1
            (handleBackgroundChunk reg bfs m now).2.1 now ms).2.1,
         (handleBackgroundChunk reg bfs m now).2.2
           ++ (runChunks (handleBackgroundChunk reg bfs m now).1
                (handleBackgroundChunk reg bfs m now).2.1 now ms).2.2) := rfl

/-- Running the remaining chunk messages of a transfer — in any order that
together with the already-stored indices forms a permutation of
`0..n-1` — completes: exactly one `background-transfer-complete` event is
emitted (at the final message, when the received count reaches
`totalChunks`), carrying the index-order reconstruction; the background is
stored; the assembler is freed. -/
theorem runChunks_completes (sid iid : String) (f : Nat → String)
    (flags : Nat → Bool) (n : Nat)
    (hsid : sid ≠ "") (hiid : iid ≠ "")
    (hf : ∀ i < n, f i ≠ "" ∧ (f i).length ≤ 600 * 1024)
    (hsize : (fullImage f n).length ≤ 10 * 1024 * 1024) :
    ∀ (rest S : List Nat) (reg : TransferRegistry)
      (bfs : List (String × BattlefieldState)) (now : Nat),
      rest ≠ [] →
      (S ++ rest).Perm (List.range n) →
      TransferInv sid iid f n S reg →
      ∃ regF,
        runChunks reg bfs now (rest.map (mkChunkMsg sid iid f flags))
          = (regF,
             setKey bfs sid
               { (getKey bfs sid).getD (mkBattlefield now) with
                   backgroundImage := some (fullImage f n)
                   lastUpdated := now },
             [TransferEvent.completeToRoom sid (fullImage f n)])
        ∧ getKey regF.transfers iid = none := by
  intro rest
  induction rest with
  | nil => intro S reg bfs now hne; exact absurd rfl hne
  | cons j rest' ih =>
      intro S reg bfs now _hne hperm hinv
      obtain ⟨t, hget, hts, htot, hchunks, hrecv⟩ := hinv
      have hnd : (S ++ j :: rest').Nodup :=
        (hperm.nodup_iff).mpr (List.nodup_range n)
      have hj : j < n := by
        have : j ∈ List.range n := hperm.mem_iff.mp (by simp)
        exact List.mem_range.mp this
      have hjS : j ∉ S := by
        intro hc
        exact absurd (List.mem_cons_self j rest')
          (List.disjoint_of_nodup_append hnd hc)
      have hlen : S.length + (rest'.length + 1) = n := by
        have := hperm.length_eq
        simp only [List.length_append, List.length_cons,
          List.length_range] at this
        omega
      have hstep := handleChunk_accept reg bfs now sid iid f flags n j S t
        hget hsid hiid (hf j hj).1 (hf j hj).2 hts htot hchunks hj hjS
      cases rest' with
      | nil =>
        -- final chunk: the received count reaches totalChunks
        simp only [List.length_nil] at hlen
        have hdone :
            ({ t with chunks := filledSlots f n (j :: S)
                      receivedChunks := t.receivedChunks + 1
                      timerId := reg.nextTimer } :
              TransferState).receivedChunks
            = ({ t with chunks := filledSlots f n (j :: S)
                        receivedChunks := t.receivedChunks + 1
                        timerId := reg.nextTimer } :
              TransferState).totalChunks := by
          simp only [hrecv, htot]
          omega
        have hfull : filledSlots f n (j :: S)
            = (List.range n).map (fun i => some (f i)) := by
          apply filledSlots_full
          intro i hi
          have : i ∈ S ++ [j] := hperm.mem_iff.mpr (List.mem_range.mpr hi)
          rcases List.mem_append.mp this with h | h
          · exact List.mem_cons_of_mem j h
          · simp only [List.mem_singleton] at h
            subst h
            exact List.mem_cons_self i S
        have hjoin :
            joinChunks (filledSlots f n (j :: S)) = fullImage f n := by
          rw [hfull]
          rfl
        have hcomp := completionCheck_complete
          { reg with
              transfers := setKey reg.transfers iid
                { t with chunks := filledSlots f n (j :: S)
                         receivedChunks := t.receivedChunks + 1
                         timerId := reg.nextTimer }
              armed := reg.armed.erase t.timerId ++ [reg.nextTimer]
              nextTimer := reg.nextTimer + 1 }
          bfs iid
          { t with chunks := filledSlots f n (j :: S)
                   receivedChunks := t.receivedChunks + 1
                   timerId := reg.nextTimer } now
          hdone (by rw [hjoin]; exact hsize)
        refine ⟨{ reg with
            transfers := delKey (setKey reg.transfers iid
              { t with chunks := filledSlots f n (j :: S)
                       receivedChunks := t.receivedChunks + 1
                       timerId := reg.nextTimer }) iid
            armed := (reg.armed.erase t.timerId
              ++ [reg.nextTimer]).erase reg.nextTimer
            nextTimer := reg.nextTimer + 1 }, ?_, ?_⟩
        · rw [List.map_cons, List.map_nil, runChunks_cons, hstep, hcomp]
          dsimp only [runChunks]
          rw [hjoin, hts]
          simp only [List.append_nil]
        · exact getKey_delKey_self _ _
      | cons a l =>
        have hrest' : (a :: l) ≠ [] := List.cons_ne_nil a l
        have hpend :
            ({ t with chunks := filledSlots f n (j :: S)
                      receivedChunks := t.receivedChunks + 1
                      timerId := reg.nextTimer } :
              TransferState).receivedChunks
            ≠ ({ t with chunks := filledSlots f n (j :: S)
                        receivedChunks := t.receivedChunks + 1
                        timerId := reg.nextTimer } :
              TransferState).totalChunks := by
          simp only [hrecv, htot]
          simp only [List.length_cons] at hlen
          omega
        have hcomp := completionCheck_pending
          { reg with
              transfers := setKey reg.transfers iid
                { t with chunks := filledSlots f n (j :: S)
                         receivedChunks := t.receivedChunks + 1
                         timerId := reg.nextTimer }
              armed := reg.armed.erase t.timerId ++ [reg.nextTimer]
              nextTimer := reg.nextTimer + 1 }
          bfs iid
          { t with chunks := filledSlots f n (j :: S)
                   receivedChunks := t.receivedChunks + 1
                   timerId := reg.nextTimer } now hpend
        have hinv' : TransferInv sid iid f n (j :: S)
            { reg with
                transfers := setKey reg.transfers iid
                  { t with chunks := filledSlots f n (j :: S)
                           receivedChunks := t.receivedChunks + 1
                           timerId := reg.nextTimer }
                armed := reg.armed.erase t.timerId ++ [reg.nextTimer]
                nextTimer := reg.nextTimer + 1 } := by
          refine ⟨_, getKey_setKey_self _ _ _, hts, htot, rfl, ?_⟩
          simp [hrecv]
        have hperm' : ((j :: S) ++ (a :: l)).Perm (List.range n) := by
          refine List.Perm.trans ?_ hperm
          exact List.perm_middle.symm
        obtain ⟨regF, hrun, hnone⟩ := ih (j :: S) _ bfs now hrest' hperm' hinv'
        refine ⟨regF, ?_, hnone⟩
        rw [List.map_cons, runChunks_cons, hstep, hcomp]
        dsimp only
        rw [hrun]
        rfl

/-- **C1**: the `background-transfer-chunk` handler never consults the
`isLastChunk` flag (first conjunct), and a transfer started with `n` chunks
then fed the `n` distinct chunks in any arrival order completes with
exactly one `background-transfer-complete` event carrying the index-order
reconstruction — the same payload as an in-order arrival — with the
completion fired exactly at the chunk whose acceptance makes the received
count reach `totalChunks` (second conjunct). -/
theorem backgroundTransfer_completion :
    (∀ (reg : TransferRegistry) (bfs : List (String × BattlefieldState))
        (msg : ChunkMsg) (now : Nat) (b : Bool),
        handleBackgroundChunk reg bfs msg now
          = handleBackgroundChunk reg bfs { msg with isLastChunk := b } now)
    ∧ ∀ (sid iid socketId : String) (f : Nat → String) (flags : Nat → Bool)
        (n : Nat) (order : List Nat) (reg₀ : TransferRegistry)
        (bfs : List (String × BattlefieldState)) (now : Nat),
        sid ≠ "" → iid ≠ "" → 0 < n → n ≤ 100 →
        order.Perm (List.range n) →
        (∀ i < n, f i ≠ "" ∧ (f i).length ≤ 600 * 1024) →
        (fullImage f n).length ≤ 10 * 1024 * 1024 →
        (handleBackgroundStart reg₀ socketId ⟨sid, iid, n⟩).2 = []
        ∧ ∃ regF,
            runChunks (handleBackgroundStart reg₀ socketId ⟨sid, iid, n⟩).1
                bfs now (order.map (mkChunkMsg sid iid f flags))
              = (regF,
                 setKey bfs sid
                   { (getKey bfs sid).getD (mkBattlefield now) with
                       backgroundImage := some (fullImage f n)
                       lastUpdated := now },
                 [TransferEvent.completeToRoom sid (fullImage f n)])
            ∧ getKey regF.transfers iid = none := by
  constructor
  · intro reg bfs msg now b
    cases msg
    rfl
  · intro sid iid socketId f flags n order reg₀ bfs now hsid hiid hn0 hn100
      hperm hf hsize
    have hn0' : n ≠ 0 := Nat.pos_iff_ne_zero.mp hn0
    have hstart : handleBackgroundStart reg₀ socketId ⟨sid, iid, n⟩
        = ({ reg₀ with
              transfers := setKey reg₀.transfers iid
                { sessionId := sid
                  chunks := List.replicate n none
                  receivedChunks := 0
                  totalChunks := n
                  initiatorSocketId := socketId
                  timerId := reg₀.nextTimer }
              armed := reg₀.armed ++ [reg₀.nextTimer]
              nextTimer := reg₀.nextTimer + 1 }, []) := by
      simp [handleBackgroundStart, hsid, hiid, hn0', Nat.not_lt.mpr hn100]
    have hne : order ≠ [] := by
      intro h
      have := hperm.length_eq
      rw [h] at this
      simp only [List.length_nil, List.length_range] at this
      omega
    have hinv : TransferInv sid iid f n []
        (handleBackgroundStart reg₀ socketId ⟨sid, iid, n⟩).1 := by
      rw [hstart]
      exact ⟨_, getKey_setKey_self _ _ _, rfl, rfl,
        (filledSlots_nil f n).symm, rfl⟩
    refine ⟨by rw [hstart], ?_⟩
    exact runChunks_completes sid iid f flags n hsid hiid hf hsize order []
      (handleBackgroundStart reg₀ socketId ⟨sid, iid, n⟩).1 bfs now hne
      (by simpa using hperm) hinv

/-- Witness for **C1**: a three-chunk transfer `A`, `B`, `C` delivered in
the order 0, 2, 1 with `isLast` only on the last-sent message (index 1)
completes with the in-order reconstruction. -/
theorem backgroundTransfer_completion_witness :
    (handleBackgroundStart ⟨[], [], 0⟩ "sock" ⟨"s", "img", 3⟩).2 = []
    ∧ ∃ regF,
        runChunks (handleBackgroundStart ⟨[], [], 0⟩ "sock" ⟨"s", "img", 3⟩).1
            [] 7
            ([0, 2, 1].map (mkChunkMsg "s" "img"
              (fun i => if i = 0 then "A" else if i = 1 then "B" else "C")
              (fun i => decide (i = 1))))
          = (regF,
             setKey [] "s"
               { (getKey [] "s").getD (mkBattlefield 7) with
                   backgroundImage := some (fullImage
                     (fun i => if i = 0 then "A" else if i = 1 then "B"
                       else "C") 3)
                   lastUpdated := 7 },
             [TransferEvent.completeToRoom "s" (fullImage
               (fun i => if i = 0 then "A" else if i = 1 then "B" else "C")
               3)])
        ∧ getKey regF.transfers "img" = none :=
  backgroundTransfer_completion.2 "s" "img" "sock"
    (fun i => if i = 0 then "A" else if i = 1 then "B" else "C")
    (fun i => decide (i = 1)) 3 [0, 2, 1] ⟨[], [], 0⟩ [] 7
    (by decide) (by decide) (by decide) (by decide) (by decide)
    (by decide) (by decide)

end DNDServer
